import Mathlib

/-!
Verification development for the audio-deid repository (src/scrub.py).

The script has two parts:

* get_start_end_timestamps: loads a transcript JSON, keeps the word
  segments whose word field matches the regex \*\*(\w+)\*\* (a substring
  search), and keeps only those with non-null start and end and with
  start < end.

* scrub_audio: opens the source video, its audio track and a beep clip,
  then walks the interval list keeping a cursor last_end_time, emitting a
  pass-through subclip before each interval when the cursor is strictly
  below the interval start, emitting a beep segment of the interval
  length (tiling the beep when it is shorter than the interval), emitting
  a final pass-through subclip when the cursor is strictly below the
  track duration, concatenating all segments, raising ValueError when the
  concatenated duration is NaN, writing the file, and finally closing the
  video, the original audio and the modified audio (the beep clip is
  never closed, and the close calls sit inside the try block after the
  write, so no error path closes anything).

Two embeddings are used.  Times and durations in the first are exact
rationals; it models runs on ordinary numeric data and carries the audio
signal, so it can speak about content.  The second tracks durations only
but in a rational-or-NaN value type, mirroring Python float comparisons
with NaN, the moviepy subclip time adjustments, and the control flow of
scrub_audio (which exceptions are raised, whether the write is reached,
which close calls run); real media files give the source track and the
beep clip positive rational durations, which is the regime the theorems
below assume.
-/

namespace AudioDeid

/-! ## Rational clip model (signal plus duration) -/

/-- A continuous time-indexed signal with a known duration, the Track of
the data model.  Models a moviepy audio clip on numeric data: the signal
is total, the duration is the bookkeeping field moviepy stores. -/
structure Clip (α : Type) where
  sig : ℚ → α
  duration : ℚ

/-- Subclip between two times: the signal is shifted and the stored
duration becomes the difference of the two arguments, as moviepy sets
newclip.duration = t_end - t_start.  This models moviepy subclip in the
regime 0 <= t_start <= clip duration and 0 <= t_end used by the validity
hypotheses below; the negative-time wrapping and the t_start range check
of moviepy are modelled separately in the run model (subclipRun). -/
def Clip.subclip {α : Type} (c : Clip α) (t_start t_end : ℚ) : Clip α :=
  ⟨fun t => c.sig (t + t_start), t_end - t_start⟩

/-- Signal of a list of clips laid end to end: play the first clip while
the time is below its duration, then continue in the rest with the time
shifted, as the cumulative starts of concatenate_audioclips do. -/
def sigAt {α : Type} [Inhabited α] : List (Clip α) → ℚ → α
  | [], _ => default
  | c :: cs, t => if t < c.duration then c.sig t else sigAt cs (t - c.duration)

/-- Concatenation of audio clips: duration is the sum of the durations
(the last cumulative start), the signal plays the clips end to end. -/
def concatenate_audioclips {α : Type} [Inhabited α] (cs : List (Clip α)) : Clip α :=
  ⟨fun t => sigAt cs t, (cs.map Clip.duration).sum⟩

/-- Repetition count computed at line 98 of scrub.py:
int(interval_duration // beep_duration) + 1, the floor of the quotient
plus one.  In the regime where the code computes it
(0 < beep_duration < interval_duration) the floor is at least 1, so the
conversion to a natural number is exact. -/
def loops (interval_duration beep_duration : ℚ) : ℕ :=
  (⌊interval_duration / beep_duration⌋).toNat + 1

/-- Beep segment for one interval, lines 95 to 102 of scrub.py: when the
beep is shorter than the interval, tile it loops times and trim the
concatenation to the interval duration; otherwise trim the beep itself. -/
def beep_to_add {α : Type} [Inhabited α] (beep : Clip α) (interval_duration : ℚ) : Clip α :=
  if beep.duration < interval_duration then
    (concatenate_audioclips
      (List.replicate (loops interval_duration beep.duration) beep)).subclip 0 interval_duration
  else
    beep.subclip 0 interval_duration

/-- A start and end pair in seconds.  The source stores these as the dict
keys start and end; end is a reserved word in Lean, so the field is named
stop. -/
structure Interval where
  start : ℚ
  stop : ℚ
deriving DecidableEq, Repr

/-- Segment list built by the loop of scrub_audio (lines 76 to 116):
before each interval a pass-through subclip when the cursor is strictly
below the interval start, then the beep segment, the cursor moving to the
interval end; after the loop a final pass-through when the cursor is
strictly below the track duration. -/
def scrubLoop {α : Type} [Inhabited α] (original beep : Clip α) :
    ℚ → List Interval → List (Clip α)
  | last_end_time, [] =>
      if last_end_time < original.duration then
        [original.subclip last_end_time original.duration]
      else []
  | last_end_time, iv :: rest =>
      (if last_end_time < iv.start then [original.subclip last_end_time iv.start] else [])
        ++ [beep_to_add beep (iv.stop - iv.start)]
        ++ scrubLoop original beep iv.stop rest

/-- The modified audio of scrub_audio: the concatenation of the emitted
segments (line 118). -/
def scrub_audio {α : Type} [Inhabited α] (original beep : Clip α)
    (time_intervals : List Interval) : Clip α :=
  concatenate_audioclips (scrubLoop original beep 0 time_intervals)

/-- Validity of an interval list from a given cursor: each interval
starts no earlier than the cursor and ends after it starts, and the final
cursor is at most the track duration D.  For interval lists whose
elements satisfy start < stop this is exactly: sorted ascending by start,
pairwise non-overlapping as half-open intervals, and every start and end
inside the closed range from 0 to D (taking the initial cursor 0). -/
def validFromB (D : ℚ) : ℚ → List Interval → Bool
  | lastEnd, [] => decide (lastEnd ≤ D)
  | lastEnd, iv :: rest =>
      decide (lastEnd ≤ iv.start) && decide (iv.start < iv.stop) && validFromB D iv.stop rest

/-- Validity of an interval list for a track of duration D, starting the
cursor at 0. -/
def validB (D : ℚ) (ivs : List Interval) : Bool :=
  validFromB D 0 ivs

/-- Whether a time point lies inside some interval of the list, intervals
being half-open on the right as in the glossary of the spec. -/
def inIntervals (ivs : List Interval) (t : ℚ) : Bool :=
  ivs.any fun iv => decide (iv.start ≤ t) && decide (t < iv.stop)

/-! ## Transcript extraction model -/

/-- Word characters of the regex class \w restricted to ASCII, which
covers the transcripts the claims are about: letters, digits and the
underscore. -/
def isWordChar (c : Char) : Bool :=
  c.isAlphanum || c == '_'

/-- Whether the regex \*\*(\w+)\*\* matches at the head of the character
list: two asterisks, then at least one word character, then two
asterisks.  Word characters and the asterisk are disjoint, so the greedy
run of word characters is the only candidate and no backtracking is
needed: this matcher is exact for the pattern. -/
def matchesHere (cs : List Char) : Bool :=
  match cs with
  | '*' :: '*' :: rest =>
      let n := (rest.takeWhile isWordChar).length
      decide (1 ≤ n) &&
        (match rest.drop n with
         | '*' :: '*' :: _ => true
         | _ => false)
  | _ => false

/-- Substring search for the pattern, as re.search used by
Series.str.contains: try every suffix. -/
def searchPattern : List Char → Bool
  | [] => false
  | c :: cs => matchesHere (c :: cs) || searchPattern cs

/-- Whether a word token contains a substring matching \*\*(\w+)\*\*. -/
def containsPattern (s : String) : Bool :=
  searchPattern s.data

/-- One value of the word_segments mapping: a word token and optional
start and end times.  A missing field of the JSON object becomes NaN in
the DataFrame and none here; for start and stop, none also covers an
explicit null or NaN value, all of which pd.notna rejects. -/
structure TranscriptEntry where
  word : Option String
  start : Option ℚ
  stop : Option ℚ
deriving DecidableEq, Repr

/-- Extraction, lines 38 to 49 of scrub.py: keep the entries whose word
contains the pattern (a missing word never matches, as na=False sets),
project to the start and end fields, and keep only those where both are
present (pd.notna) and start < end. -/
def get_start_end_timestamps (entries : List TranscriptEntry) : List Interval :=
  let filtered := entries.filter fun en =>
    match en.word with
    | some w => containsPattern w
    | none => false
  filtered.filterMap fun en =>
    match en.start, en.stop with
    | some s, some e => if s < e then some ⟨s, e⟩ else none
    | _, _ => none

/-! ## Run model with NaN (control flow of scrub_audio) -/

/-- A Python float that is either NaN or an exact rational.  Transcript
times can be NaN (JSON NaN literals pass json.load), and NaN propagates
through the duration arithmetic of the splice. -/
inductive FVal where
  | nan : FVal
  | num : ℚ → FVal
deriving DecidableEq, Repr

/-- Subtraction of Python floats: NaN propagates. -/
def FVal.sub : FVal → FVal → FVal
  | num a, num b => num (a - b)
  | _, _ => nan

/-- Addition of Python floats: NaN propagates. -/
def FVal.add : FVal → FVal → FVal
  | num a, num b => num (a + b)
  | _, _ => nan

/-- Strict less-than of Python floats: any comparison with NaN is
False. -/
def FVal.lt : FVal → FVal → Bool
  | num a, num b => decide (a < b)
  | _, _ => false

/-- Inequality of Python floats as the != operator: NaN compares unequal
to everything, itself included, which is the NaN test of line 122. -/
def FVal.ne : FVal → FVal → Bool
  | num a, num b => decide (a ≠ b)
  | _, _ => true

/-- Exceptions the modelled run can raise before reaching the write. -/
inductive PyError where
  | subclipRangeError : PyError
  | zeroDivisionError : PyError
  | emptyConcatError : PyError
  | valueErrorNaNDuration : PyError
deriving DecidableEq, Repr

/-- Time adjustment of moviepy subclip on a clip of duration clipDur: a
negative time counts from the end of the clip; NaN is below nothing, so
it passes through unchanged. -/
def adjustTime (clipDur : ℚ) (t : FVal) : FVal :=
  match t with
  | .nan => .nan
  | .num c => if c < 0 then .num (clipDur + c) else .num c

/-- Duration bookkeeping of moviepy subclip on a clip of numeric duration
clipDur: adjust both times, raise ValueError when the adjusted start
exceeds the clip duration (moviepy checks only the start), and otherwise
return the difference of the adjusted times.  A NaN start trips no check
and yields a NaN duration. -/
def subclipRun (clipDur : ℚ) (t_start t_end : FVal) : Except PyError FVal :=
  match adjustTime clipDur t_start with
  | .nan => .ok ((adjustTime clipDur t_end).sub .nan)
  | .num a =>
      if clipDur < a then .error .subclipRangeError
      else .ok ((adjustTime clipDur t_end).sub (.num a))

/-- Duration of the beep segment for one interval in the run model,
lines 95 to 102: when the beep duration b is strictly below the interval
duration (a comparison that is False when the interval duration is NaN),
the code divides by b, raising ZeroDivisionError when b = 0, tiles the
beep loops times (an empty tiling would make concatenate_audioclips
fail on an empty list) and trims with subclip; otherwise it trims the
beep clip itself with subclip, whose negative-time wrapping uses the beep
duration. -/
def beepSegDur (b : ℚ) (interval_duration : FVal) : Except PyError FVal :=
  if FVal.lt (.num b) interval_duration then
    match interval_duration with
    | .nan => .ok .nan
    | .num dq =>
        if b = 0 then .error .zeroDivisionError
        else
          let l : ℤ := ⌊dq / b⌋ + 1
          if l ≤ 0 then .error .emptyConcatError
          else subclipRun ((l : ℚ) * b) (.num 0) (.num dq)
  else
    subclipRun b (.num 0) interval_duration

/-- Segment durations emitted by the loop of scrub_audio in the run
model, for a source track of numeric duration D and a beep clip of
numeric duration b: the pass-through subclip before an interval when the
cursor is strictly below the interval start, the beep segment, then the
rest of the loop from the interval end; after the loop, the final
pass-through when the cursor is strictly below D.  Any raised exception
aborts the loop. -/
def scrubDurLoop (D b : ℚ) : FVal → List (FVal × FVal) → Except PyError (List FVal)
  | last_end_time, [] =>
      if FVal.lt last_end_time (.num D) then
        match subclipRun D last_end_time (.num D) with
        | .error err => .error err
        | .ok dur => .ok [dur]
      else .ok []
  | last_end_time, (s, e) :: rest =>
      let passRes : Except PyError (List FVal) :=
        if FVal.lt last_end_time s then
          match subclipRun D last_end_time s with
          | .error err => .error err
          | .ok dur => .ok [dur]
        else .ok []
      match passRes with
      | .error err => .error err
      | .ok pass =>
          match beepSegDur b (e.sub s) with
          | .error err => .error err
          | .ok bseg =>
              match scrubDurLoop D b e rest with
              | .error err => .error err
              | .ok segs => .ok (pass ++ [bseg] ++ segs)

/-- Duration of the concatenated modified audio in the run model: the
final cumulative start, a left fold of float addition over the segment
durations. -/
def modified_duration (D b : ℚ) (ivs : List (FVal × FVal)) : Except PyError FVal :=
  match scrubDurLoop D b (.num 0) ivs with
  | .error err => .error err
  | .ok segs => .ok (segs.foldl FVal.add (.num 0))

/-- Outcome of one run of scrub_audio: which exception reached the
caller (none on success), whether write_audiofile was reached (line 126),
and which close calls ran.  The close calls (lines 130 to 132) sit inside
the try block after the write, so they run only when nothing was raised;
the beep clip has no close call at all. -/
structure RunResult where
  error : Option PyError
  wrote : Bool
  videoClosed : Bool
  audioClosed : Bool
  modifiedClosed : Bool
  beepClosed : Bool
deriving DecidableEq, Repr

/-- Control flow of scrub_audio, lines 76 to 136, in the run model: build
the segment durations, concatenate, raise ValueError when the resulting
duration is NaN (the comparison duration != duration of line 122), else
write and close the video, the original audio and the modified audio.
The except clause only logs and re-raises, so an exception reaches the
caller with nothing closed and nothing written. -/
def scrub_audio_run (D b : ℚ) (ivs : List (FVal × FVal)) : RunResult :=
  match scrubDurLoop D b (.num 0) ivs with
  | .error err => ⟨some err, false, false, false, false, false⟩
  | .ok segs =>
      let total := segs.foldl FVal.add (.num 0)
      if FVal.ne total total then
        ⟨some PyError.valueErrorNaNDuration, false, false, false, false, false⟩
      else
        ⟨none, true, true, true, true, false⟩

/-! ## Spec-side definition for the tiling refinement -/

/-- Repetition count as the spec words it: the ceiling of the interval
duration over the tone duration.  Declared only to compare with loops,
the count the source computes. -/
def specTileRepetitions (interval_duration beep_duration : ℚ) : ℕ :=
  (⌈interval_duration / beep_duration⌉).toNat

/-! ## Concrete clips and inputs used by witnesses -/

/-- A ten-second source track over rational samples, the signal being the
identity so that every time point carries a distinct sample. -/
def src10 : Clip ℚ :=
  ⟨fun t => t, 10⟩

/-- A one-second tone clip with constant sample 7. -/
def tone1 : Clip ℚ :=
  ⟨fun _ => 7, 1⟩

/-- A one-second tone clip with constant sample 1, used by the tiling
counterexample. -/
def toneOne : Clip ℚ :=
  ⟨fun _ => 1, 1⟩

end AudioDeid

namespace AudioDeid

/-! ## Helper lemmas -/

/-- The beep segment for an interval always has the interval duration as
its stored duration: both branches of beep_to_add end in a subclip from 0
to the interval duration. -/
theorem beep_to_add_duration {α : Type} [Inhabited α] (beep : Clip α) (d : ℚ) :
    (beep_to_add beep d).duration = d := by
  unfold beep_to_add
  split <;> simp [Clip.subclip]

/-- Durations of the emitted segments telescope: from any cursor
position, a valid remainder of the interval list contributes segments
whose durations sum to the distance from the cursor to the track end. -/
theorem scrubLoop_duration_sum {α : Type} [Inhabited α] (original beep : Clip α) :
    ∀ (ivs : List Interval) (lastEnd : ℚ),
      validFromB original.duration lastEnd ivs = true →
      ((scrubLoop original beep lastEnd ivs).map Clip.duration).sum
        = original.duration - lastEnd := by
  intro ivs
  induction ivs with
  | nil =>
      intro lastEnd hv
      simp only [validFromB, decide_eq_true_eq] at hv
      by_cases h : lastEnd < original.duration
      · simp [scrubLoop, h, Clip.subclip]
      · have heq : lastEnd = original.duration := le_antisymm hv (not_lt.mp h)
        simp [scrubLoop, h, heq]
  | cons iv rest ih =>
      intro lastEnd hv
      simp only [validFromB, Bool.and_eq_true, decide_eq_true_eq] at hv
      obtain ⟨⟨h1, h2⟩, h3⟩ := hv
      have hrest := ih iv.stop h3
      by_cases h : lastEnd < iv.start
      · simp only [scrubLoop, if_pos h, List.map_append, List.sum_append,
          List.map_cons, List.sum_cons, List.map_nil, List.sum_nil,
          beep_to_add_duration, Clip.subclip, hrest]
        ring
      · have heq : lastEnd = iv.start := le_antisymm h1 (not_lt.mp h)
        subst heq
        simp only [scrubLoop, if_neg h, List.nil_append, List.map_append,
          List.sum_append, List.map_cons, List.sum_cons, List.map_nil,
          List.sum_nil, beep_to_add_duration, hrest]
        ring

end AudioDeid

namespace AudioDeid

/-- Claim C1: for every source track, tone clip of positive duration, and
interval list that is sorted ascending by start, pairwise non-overlapping
and inside the track bounds (validB), the output of scrub_audio has
duration exactly the source duration. -/
theorem scrub_audio_preserves_duration {α : Type} [Inhabited α]
    (original beep : Clip α) (ivs : List Interval)
    (hbeep : 0 < beep.duration) (hv : validB original.duration ivs = true) :
    (scrub_audio original beep ivs).duration = original.duration := by
  have h := scrubLoop_duration_sum original beep ivs 0 (by simpa [validB] using hv)
  simpa [scrub_audio, concatenate_audioclips] using h

/-- Witness for claim C1: a ten second track, a one second tone, and two
valid intervals. -/
theorem scrub_audio_preserves_duration_witness :
    (0:ℚ) < tone1.duration
      ∧ validB src10.duration [⟨1, 2⟩, ⟨4, 6⟩] = true
      ∧ (scrub_audio src10 tone1 [⟨1, 2⟩, ⟨4, 6⟩]).duration = src10.duration :=
  ⟨by decide, by decide,
    scrub_audio_preserves_duration src10 tone1 [⟨1, 2⟩, ⟨4, 6⟩] (by decide) (by decide)⟩

/-- Pass-through correspondence: from any cursor position, for a valid
remainder of the interval list and a time point t between the cursor and
the track end that lies outside every interval, the concatenated emitted
segments play the source signal at t (the offset into the segments being
t minus the cursor). -/
theorem scrubLoop_sig_outside {α : Type} [Inhabited α] (original beep : Clip α) (t : ℚ) :
    ∀ (ivs : List Interval) (lastEnd : ℚ),
      validFromB original.duration lastEnd ivs = true →
      lastEnd ≤ t → t < original.duration →
      inIntervals ivs t = false →
      sigAt (scrubLoop original beep lastEnd ivs) (t - lastEnd) = original.sig t := by
  intro ivs
  induction ivs with
  | nil =>
      intro lastEnd hv hle ht _
      have hlt : lastEnd < original.duration := lt_of_le_of_lt hle ht
      simp only [scrubLoop, if_pos hlt, sigAt, Clip.subclip]
      rw [if_pos (by linarith)]
      congr 1
      ring
  | cons iv rest ih =>
      intro lastEnd hv hle ht hout
      simp only [validFromB, Bool.and_eq_true, decide_eq_true_eq] at hv
      obtain ⟨⟨h1, h2⟩, h3⟩ := hv
      have hnotin : ¬ (iv.start ≤ t ∧ t < iv.stop) := by
        intro ⟨ha, hb⟩
        simp [inIntervals, ha, hb] at hout
      have hrest : inIntervals rest t = false := by
        simp only [inIntervals, List.any_cons, Bool.or_eq_false_iff] at hout
        exact hout.2
      rcases lt_or_le t iv.start with hts | hst
      · have hpass : lastEnd < iv.start := lt_of_le_of_lt hle hts
        simp only [scrubLoop, if_pos hpass, List.cons_append, List.nil_append,
          sigAt, Clip.subclip]
        rw [if_pos (by linarith)]
        congr 1
        ring
      · have hte : iv.stop ≤ t := by
          by_contra hlt2
          push_neg at hlt2
          exact hnotin ⟨hst, hlt2⟩
        have key := ih iv.stop h3 hte ht hrest
        by_cases hpass : lastEnd < iv.start
        · simp only [scrubLoop, if_pos hpass, List.cons_append, List.nil_append,
            sigAt, Clip.subclip, beep_to_add_duration]
          rw [if_neg (by push_neg; linarith), if_neg (by push_neg; linarith)]
          have hoff : t - lastEnd - (iv.start - lastEnd) - (iv.stop - iv.start)
              = t - iv.stop := by ring
          rw [hoff]
          exact key
        · have heq : lastEnd = iv.start := le_antisymm h1 (not_lt.mp hpass)
          subst heq
          simp only [scrubLoop, if_neg hpass, List.nil_append, List.cons_append,
            sigAt, beep_to_add_duration]
          rw [if_neg (by push_neg; linarith)]
          have hoff : t - iv.start - (iv.stop - iv.start) = t - iv.stop := by ring
          rw [hoff]
          exact key

/-- Claim C3: pass-through fidelity: for a valid interval list and any
time point of the track lying outside every interval, the output signal
of scrub_audio equals the source signal at that point. -/
theorem scrub_audio_passthrough {α : Type} [Inhabited α]
    (original beep : Clip α) (ivs : List Interval) (t : ℚ)
    (hbeep : 0 < beep.duration)
    (hv : validB original.duration ivs = true)
    (ht0 : 0 ≤ t) (htD : t < original.duration)
    (hout : inIntervals ivs t = false) :
    (scrub_audio original beep ivs).sig t = original.sig t := by
  have h := scrubLoop_sig_outside original beep t ivs 0 (by simpa [validB] using hv)
    ht0 htD hout
  simpa [scrub_audio, concatenate_audioclips] using h

/-- Witness for claim C3: the point 5 lies outside the single interval
from 2 to 3 and the output plays the source sample there. -/
theorem scrub_audio_passthrough_witness :
    validB src10.duration [⟨2, 3⟩] = true
      ∧ inIntervals [⟨2, 3⟩] (5:ℚ) = false
      ∧ (scrub_audio src10 tone1 [⟨2, 3⟩]).sig 5 = src10.sig 5 :=
  ⟨by decide, by decide,
    scrub_audio_passthrough src10 tone1 [⟨2, 3⟩] 5 (by decide) (by decide)
      (by decide) (by decide) (by decide)⟩

/-- Claim C10: with an empty interval list, the loop emits exactly one
pass-through segment covering the whole track, the output duration equals
the source duration, and the output signal equals the source signal on
the whole track: splicing with no intervals is the identity on content. -/
theorem scrub_audio_empty_identity {α : Type} [Inhabited α]
    (original beep : Clip α) (hD : 0 < original.duration) :
    scrubLoop original beep 0 [] = [original.subclip 0 original.duration]
      ∧ (scrub_audio original beep []).duration = original.duration
      ∧ ∀ t : ℚ, 0 ≤ t → t < original.duration →
          (scrub_audio original beep []).sig t = original.sig t := by
  refine ⟨by simp [scrubLoop, hD], ?_, ?_⟩
  · simp [scrub_audio, concatenate_audioclips, scrubLoop, hD, Clip.subclip]
  · intro t ht0 htD
    simp only [scrub_audio, concatenate_audioclips, scrubLoop, if_pos hD,
      sigAt, Clip.subclip]
    rw [if_pos (by linarith)]
    congr 1
    ring

/-- Witness for claim C10 on the ten second track. -/
theorem scrub_audio_empty_identity_witness :
    (0:ℚ) < src10.duration
      ∧ (scrub_audio src10 tone1 []).duration = src10.duration :=
  ⟨by decide, (scrub_audio_empty_identity src10 tone1 (by decide)).2.1⟩

end AudioDeid

namespace AudioDeid

/-- Claim C9: when the second of two consecutive intervals starts
strictly before the first ends and ends after it (an overlap), the loop
skips the pass-through before the second interval yet still emits its
full tone segment of length stop minus start, so the output duration is
the source duration plus the overlap width, a strict excess: overlaps are
neither rejected nor merged. -/
theorem scrub_audio_overlap_exceeds {α : Type} [Inhabited α]
    (original beep : Clip α) (s1 e1 s2 e2 : ℚ)
    (hbeep : 0 < beep.duration)
    (h0 : 0 ≤ s1) (h1 : s1 < e1) (hover : s2 < e1) (h2 : e1 < e2)
    (hD : e2 ≤ original.duration) :
    scrubLoop original beep e1 [⟨s2, e2⟩]
        = beep_to_add beep (e2 - s2) :: scrubLoop original beep e2 []
      ∧ (scrub_audio original beep [⟨s1, e1⟩, ⟨s2, e2⟩]).duration
          = original.duration + (e1 - s2)
      ∧ original.duration < (scrub_audio original beep [⟨s1, e1⟩, ⟨s2, e2⟩]).duration := by
  have hn : ¬ e1 < s2 := not_lt.mpr hover.le
  have hd : (scrub_audio original beep [⟨s1, e1⟩, ⟨s2, e2⟩]).duration
      = original.duration + (e1 - s2) := by
    simp only [scrub_audio, concatenate_audioclips, scrubLoop, if_neg hn]
    by_cases hs1 : (0:ℚ) < s1
    · by_cases he2 : e2 < original.duration
      · simp only [if_pos hs1, if_pos he2, List.map_append, List.sum_append,
          List.map_cons, List.sum_cons, List.map_nil, List.sum_nil,
          List.nil_append, beep_to_add_duration, Clip.subclip]
        ring
      · have he2' : e2 = original.duration := le_antisymm hD (not_lt.mp he2)
        simp only [if_pos hs1, if_neg he2, List.map_append, List.sum_append,
          List.map_cons, List.sum_cons, List.map_nil, List.sum_nil,
          List.nil_append, beep_to_add_duration, Clip.subclip]
        linarith
    · have hs1' : s1 = 0 := le_antisymm (not_lt.mp hs1) h0
      by_cases he2 : e2 < original.duration
      · simp only [if_neg hs1, if_pos he2, List.map_append, List.sum_append,
          List.map_cons, List.sum_cons, List.map_nil, List.sum_nil,
          List.nil_append, beep_to_add_duration, Clip.subclip]
        linarith
      · have he2' : e2 = original.duration := le_antisymm hD (not_lt.mp he2)
        simp only [if_neg hs1, if_neg he2, List.map_append, List.sum_append,
          List.map_cons, List.sum_cons, List.map_nil, List.sum_nil,
          List.nil_append, beep_to_add_duration, Clip.subclip]
        linarith
  refine ⟨?_, hd, ?_⟩
  · simp [scrubLoop, hn]
  · rw [hd]
    linarith

/-- Witness for claim C9: intervals from 1 to 4 and from 3 to 6 overlap
by one second and the output of the ten second track lasts eleven
seconds. -/
theorem scrub_audio_overlap_exceeds_witness :
    (scrub_audio src10 tone1 [⟨1, 4⟩, ⟨3, 6⟩]).duration
        = src10.duration + ((4:ℚ) - 3)
      ∧ src10.duration < (scrub_audio src10 tone1 [⟨1, 4⟩, ⟨3, 6⟩]).duration :=
  ⟨(scrub_audio_overlap_exceeds src10 tone1 1 4 3 6 (by decide) (by decide) (by decide)
      (by decide) (by decide) (by decide)).2.1,
    (scrub_audio_overlap_exceeds src10 tone1 1 4 3 6 (by decide) (by decide) (by decide)
      (by decide) (by decide) (by decide)).2.2⟩

/-- In the tiling regime the floor-based count of the source covers the
interval: loops repetitions of the tone reach or exceed the interval
duration. -/
theorem loops_mul_covers (d b : ℚ) (hb : 0 < b) (hbd : b < d) :
    d ≤ (loops d b : ℚ) * b := by
  have h1 : (1:ℤ) ≤ ⌊d / b⌋ := by
    rw [Int.le_floor]
    push_cast
    rw [le_div_iff hb]
    linarith
  have h0 : (0:ℤ) ≤ ⌊d / b⌋ := le_trans zero_le_one h1
  have h3 : d < ((⌊d / b⌋ : ℚ) + 1) * b := by
    have h2 : d / b < (⌊d / b⌋ : ℚ) + 1 := Int.lt_floor_add_one _
    rw [div_lt_iff hb] at h2
    linarith
  have h4 : (loops d b : ℚ) = (⌊d / b⌋ : ℚ) + 1 := by
    have h5 : (loops d b : ℤ) = ⌊d / b⌋ + 1 := by
      unfold loops
      push_cast
      rw [Int.toNat_of_nonneg h0]
    exact_mod_cast h5
  rw [h4]
  linarith

/-- The repetition count of the source is at least the ceiling count the
spec words: the ceiling of a quotient is at most its floor plus one. -/
theorem specTile_le_loops (d b : ℚ) :
    specTileRepetitions d b ≤ loops d b := by
  unfold specTileRepetitions loops
  have h := Int.ceil_le_floor_add_one (d / b)
  omega

end AudioDeid

namespace AudioDeid

/-- Claim C2 as amended: for an interval strictly longer than the tone
clip, the code builds the tone segment by concatenating exactly
floor(duration over tone duration) plus one repetitions of the tone and
trimming to exactly the interval duration; this count reaches or exceeds
the interval and is at least the ceiling count, but it is not always
equal to the ceiling (it is one more when the tone duration divides the
interval duration exactly). -/
theorem beep_to_add_tiling {α : Type} [Inhabited α] (beep : Clip α) (d : ℚ)
    (hb : 0 < beep.duration) (hbd : beep.duration < d) :
    beep_to_add beep d
        = (concatenate_audioclips
            (List.replicate (loops d beep.duration) beep)).subclip 0 d
      ∧ (beep_to_add beep d).duration = d
      ∧ d ≤ (loops d beep.duration : ℚ) * beep.duration
      ∧ specTileRepetitions d beep.duration ≤ loops d beep.duration := by
  refine ⟨?_, beep_to_add_duration beep d, loops_mul_covers d beep.duration hb hbd,
    specTile_le_loops d beep.duration⟩
  unfold beep_to_add
  rw [if_pos hbd]

/-- Witness for the amended claim C2: a one second tone against a three
second interval. -/
theorem beep_to_add_tiling_witness :
    (0:ℚ) < tone1.duration ∧ tone1.duration < 3
      ∧ (beep_to_add tone1 3).duration = 3
      ∧ (3 : ℚ) ≤ (loops 3 tone1.duration : ℚ) * tone1.duration :=
  ⟨by decide, by decide, (beep_to_add_tiling tone1 3 (by decide) (by decide)).2.1,
    (beep_to_add_tiling tone1 3 (by decide) (by decide)).2.2.1⟩

/-- Counterexample to claim C2 as stated: with a tone of duration 1 and
an interval of duration 2 the code concatenates 3 repetitions while the
ceiling count the claim names is 2, and the segment the code builds is
not the trimmed concatenation of 2 repetitions (their signals differ at
time 2). -/
theorem beep_to_add_ceil_counterexample :
    loops 2 toneOne.duration ≠ specTileRepetitions 2 toneOne.duration
      ∧ beep_to_add toneOne 2
          ≠ (concatenate_audioclips
              (List.replicate (specTileRepetitions 2 toneOne.duration) toneOne)).subclip 0 2 := by
  have htone : toneOne.duration = 1 := rfl
  have hloops : loops 2 toneOne.duration = 3 := by
    rw [htone]
    unfold loops
    norm_num
    decide
  have hspec : specTileRepetitions 2 toneOne.duration = 2 := by
    rw [htone]
    unfold specTileRepetitions
    norm_num
    decide
  refine ⟨by rw [hloops, hspec]; decide, ?_⟩
  intro h
  have h2 := congrArg (fun c : Clip ℚ => c.sig 2) h
  simp only [beep_to_add] at h2
  rw [if_pos (show toneOne.duration < (2:ℚ) by rw [htone]; norm_num), hloops, hspec] at h2
  simp only [Clip.subclip, concatenate_audioclips] at h2
  have hd : (default : ℚ) = 0 := rfl
  norm_num [List.replicate, sigAt, toneOne, hd] at h2

/-- Claim C4: on the three entry transcript of the spec, extraction
returns exactly the single interval from 2 to 3: the first entry has no
double-asterisk marker, the third has an inverted interval. -/
theorem get_start_end_timestamps_example :
    get_start_end_timestamps
        [⟨some "hello", some 0, some 1⟩,
         ⟨some "**bleep**", some 2, some 3⟩,
         ⟨some "**bad**", some 5, some 4⟩]
      = [⟨2, 3⟩] := by
  decide

/-- Claim C5: every interval extraction returns satisfies start < end,
and its times come from entries whose start and end fields are non-null
(the return type itself carries no nulls). -/
theorem get_start_end_timestamps_valid (entries : List TranscriptEntry)
    (iv : Interval) (hmem : iv ∈ get_start_end_timestamps entries) :
    iv.start < iv.stop
      ∧ ∃ en ∈ entries, en.start = some iv.start ∧ en.stop = some iv.stop := by
  simp only [get_start_end_timestamps, List.mem_filterMap] at hmem
  obtain ⟨en, henmem, hen⟩ := hmem
  have henmem' : en ∈ entries := (List.mem_filter.mp henmem).1
  rcases en with ⟨w, st, et⟩
  rcases st with _ | s
  · simp at hen
  · rcases et with _ | e
    · simp at hen
    · dsimp only at hen
      by_cases hlt : s < e
      · rw [if_pos hlt] at hen
        obtain rfl : Interval.mk s e = iv := Option.some.inj hen
        exact ⟨hlt, ⟨w, some s, some e⟩, henmem', rfl, rfl⟩
      · rw [if_neg hlt] at hen
        simp at hen

/-- Witness for claim C5 on a one entry transcript. -/
theorem get_start_end_timestamps_valid_witness :
    (⟨2, 3⟩ : Interval) ∈ get_start_end_timestamps [⟨some "**x**", some 2, some 3⟩]
      ∧ (⟨2, 3⟩ : Interval).start < (⟨2, 3⟩ : Interval).stop :=
  ⟨by decide,
    (get_start_end_timestamps_valid [⟨some "**x**", some 2, some 3⟩] ⟨2, 3⟩ (by decide)).1⟩

end AudioDeid

namespace AudioDeid

/-- Subtracting NaN gives NaN whatever the left operand. -/
theorem FVal.sub_nan (x : FVal) : FVal.sub x .nan = .nan := by
  cases x <;> rfl

/-- Subclip bookkeeping on numeric times in the well-formed regime: start
at least 0 and at most the clip duration, end at least 0; the duration is
the difference of the two times. -/
theorem subclipRun_num (clipDur a c : ℚ) (ha : 0 ≤ a) (hac : a ≤ clipDur) (hc : 0 ≤ c) :
    subclipRun clipDur (.num a) (.num c) = .ok (.num (c - a)) := by
  simp only [subclipRun, adjustTime, if_neg (not_lt.mpr ha), if_neg (not_lt.mpr hc),
    if_neg (not_lt.mpr hac), FVal.sub]

/-- Subclip bookkeeping with a NaN start: no check trips and the duration
is NaN. -/
theorem subclipRun_nan_start (clipDur : ℚ) (t_end : FVal) :
    subclipRun clipDur .nan t_end = .ok .nan := by
  simp only [subclipRun, adjustTime, FVal.sub_nan]

/-- Beep segment duration for a positive numeric interval duration and a
positive beep duration: no exception, and the stored duration is the
interval duration (minus the zero start of the trimming subclip). -/
theorem beepSegDur_num (b d : ℚ) (hb : 0 < b) (hd : 0 < d) :
    beepSegDur b (.num d) = .ok (.num (d - 0)) := by
  unfold beepSegDur
  by_cases hbd : b < d
  · have hlt : FVal.lt (.num b) (.num d) = true := by
      simp only [FVal.lt, decide_eq_true_eq]
      exact hbd
    rw [if_pos hlt]
    dsimp only
    have hfl : (1:ℤ) ≤ ⌊d / b⌋ := by
      rw [Int.le_floor]
      push_cast
      rw [le_div_iff₀ hb]
      linarith
    rw [if_neg hb.ne']
    rw [if_neg (show ¬ (⌊d / b⌋ + 1 ≤ 0) by omega)]
    have hcast : (0:ℚ) ≤ ((⌊d / b⌋ + 1 : ℤ) : ℚ) * b := by
      have : (0:ℚ) ≤ ((⌊d / b⌋ + 1 : ℤ) : ℚ) := by
        push_cast
        have : (1:ℚ) ≤ (⌊d / b⌋ : ℚ) := by exact_mod_cast hfl
        linarith
      exact mul_nonneg this hb.le
    exact subclipRun_num _ 0 d le_rfl hcast hd.le
  · have hlt : FVal.lt (.num b) (.num d) = false := by
      simp only [FVal.lt, decide_eq_false_iff_not]
      exact hbd
    rw [if_neg (by simp [hlt])]
    exact subclipRun_num b 0 d le_rfl hb.le hd.le

/-- Beep segment duration for a NaN interval duration and a non-negative
beep duration: the tiling comparison is False on NaN, the trimming
subclip trips no check, and the stored duration is NaN. -/
theorem beepSegDur_nan (b : ℚ) (hb : 0 ≤ b) :
    beepSegDur b .nan = .ok .nan := by
  unfold beepSegDur
  rw [if_neg (by simp [FVal.lt])]
  simp only [subclipRun, adjustTime, if_neg (lt_irrefl (0:ℚ)), if_neg (not_lt.mpr hb),
    FVal.sub]

/-- Claim C7: whenever the segment loop completes and the concatenated
duration (the fold of float addition over the segment durations) is NaN,
scrub_audio raises ValueError (the DurationError of the spec) and the
write is never reached.  The positivity hypotheses record that real media
give the source track and the beep clip positive durations. -/
theorem scrub_run_nan_duration_raises (D b : ℚ) (ivs : List (FVal × FVal))
    (hD : 0 < D) (hb : 0 < b) (segs : List FVal)
    (hok : scrubDurLoop D b (.num 0) ivs = .ok segs)
    (hnan : segs.foldl FVal.add (.num 0) = FVal.nan) :
    (scrub_audio_run D b ivs).error = some PyError.valueErrorNaNDuration
      ∧ (scrub_audio_run D b ivs).wrote = false := by
  simp only [scrub_audio_run, hok, hnan]
  simp [FVal.ne]

end AudioDeid

namespace AudioDeid

/-- Witness for claim C7: an interval whose start is NaN makes the
concatenated duration NaN, and the run raises ValueError without
writing. -/
theorem scrub_run_nan_duration_raises_witness :
    (scrub_audio_run 10 1 [(.nan, .num 3)]).error = some PyError.valueErrorNaNDuration
      ∧ (scrub_audio_run 10 1 [(.nan, .num 3)]).wrote = false := by
  have hbeep : beepSegDur 1 (FVal.sub (.num 3) .nan) = .ok .nan := by
    rw [show FVal.sub (.num 3) .nan = .nan from rfl]
    exact beepSegDur_nan 1 (by norm_num)
  have hfinal := subclipRun_num 10 3 10 (by norm_num) (by norm_num) (by norm_num)
  have hlt3 : FVal.lt (.num 3) (.num 10) = true := by
    simp only [FVal.lt, decide_eq_true_eq]
    norm_num
  have hok : scrubDurLoop 10 1 (.num 0) [(.nan, .num 3)] = .ok [.nan, .num (10 - 3)] := by
    simp only [scrubDurLoop, hbeep, hfinal, hlt3,
      show FVal.lt (.num 0) (.nan : FVal) = false from rfl]
    simp
  exact scrub_run_nan_duration_raises 10 1 [(.nan, .num 3)] (by norm_num) (by norm_num)
    [.nan, .num (10 - 3)] hok (by rfl)

/-- Claim C6 as amended: scrub_audio performs no range validation: for an
interval that starts inside the track but ends beyond its duration, no
exception is raised, the write is reached, and the output duration is the
interval end, which exceeds the source duration, instead of the run
failing. -/
theorem scrub_run_out_of_range_writes (D b s e : ℚ)
    (hb : 0 < b) (h0 : 0 ≤ s) (hse : s < e) (hsD : s ≤ D) (heD : D < e) :
    scrub_audio_run D b [(.num s, .num e)] = ⟨none, true, true, true, true, false⟩
      ∧ modified_duration D b [(.num s, .num e)] = .ok (.num e)
      ∧ FVal.num e ≠ FVal.num D := by
  have hsub : FVal.sub (.num e) (.num s) = .num (e - s) := rfl
  have hbeep := beepSegDur_num b (e - s) hb (by linarith)
  have hltfinal : FVal.lt (.num e) (.num D) = false := by
    simp only [FVal.lt, decide_eq_false_iff_not]
    exact not_lt.mpr heD.le
  have hrest : scrubDurLoop D b (.num e) [] = .ok [] := by
    simp only [scrubDurLoop, hltfinal]
    simp
  by_cases hs : 0 < s
  · have hlt0 : FVal.lt (.num 0) (.num s) = true := by
      simp only [FVal.lt, decide_eq_true_eq]
      exact hs
    have hpass := subclipRun_num D 0 s le_rfl (le_trans h0 hsD) h0
    have hloop : scrubDurLoop D b (.num 0) [(.num s, .num e)]
        = .ok [.num (s - 0), .num (e - s - 0)] := by
      simp only [scrubDurLoop, hsub, hbeep, hlt0, hpass, hrest]
      simp [hltfinal]
    have htot : ([FVal.num (s - 0), .num (e - s - 0)].foldl FVal.add (.num 0))
        = .num (0 + (s - 0) + (e - s - 0)) := by
      simp [FVal.add]
    refine ⟨?_, ?_, ?_⟩
    · simp only [scrub_audio_run, hloop, htot]
      simp [FVal.ne]
    · simp only [modified_duration, hloop, htot]
      have he : (0:ℚ) + (s - 0) + (e - s - 0) = e := by ring
      rw [he]
    · intro hEq
      injection hEq with h
      exact (ne_of_gt heD) h
  · have hs' : s = 0 := le_antisymm (not_lt.mp hs) h0
    subst hs'
    have hlt0 : FVal.lt (.num 0) (.num 0) = false := by
      simp [FVal.lt]
    have hloop : scrubDurLoop D b (.num 0) [(.num 0, .num e)]
        = .ok [.num (e - 0 - 0)] := by
      simp only [scrubDurLoop, hsub, hbeep, hlt0, hrest]
      simp [hltfinal]
    have htot : ([FVal.num (e - 0 - 0)].foldl FVal.add (.num 0))
        = .num (0 + (e - 0 - 0)) := by
      simp [FVal.add]
    refine ⟨?_, ?_, ?_⟩
    · simp only [scrub_audio_run, hloop, htot]
      simp [FVal.ne]
    · simp only [modified_duration, hloop, htot]
      have he : (0:ℚ) + (e - 0 - 0) = e := by ring
      rw [he]
    · intro hEq
      injection hEq with h
      exact (ne_of_gt heD) h

/-- Witness for the amended claim C6: an eight second track with an
interval from 1 to 9. -/
theorem scrub_run_out_of_range_writes_witness :
    scrub_audio_run 8 2 [(.num 1, .num 9)] = ⟨none, true, true, true, true, false⟩
      ∧ modified_duration 8 2 [(.num 1, .num 9)] = .ok (.num 9) :=
  ⟨(scrub_run_out_of_range_writes 8 2 1 9 (by norm_num) (by norm_num) (by norm_num)
      (by norm_num) (by norm_num)).1,
    (scrub_run_out_of_range_writes 8 2 1 9 (by norm_num) (by norm_num) (by norm_num)
      (by norm_num) (by norm_num)).2.1⟩

/-- Counterexample to claim C6: on a ten second source with a one second
beep and the single interval from 5 to 12, whose end falls outside the
track bounds, the run raises nothing, reaches the write, and the output
duration is 12: the code produces an output track rather than failing
with any range error. -/
theorem scrub_run_out_of_range_counterexample :
    (scrub_audio_run 10 1 [(.num 5, .num 12)]).error = none
      ∧ (scrub_audio_run 10 1 [(.num 5, .num 12)]).wrote = true
      ∧ modified_duration 10 1 [(.num 5, .num 12)] = .ok (.num 12) := by
  have hlt05 : FVal.lt (.num 0) (.num 5) = true := by
    simp only [FVal.lt, decide_eq_true_eq]
    norm_num
  have hpass := subclipRun_num 10 0 5 le_rfl (by norm_num) (by norm_num)
  have hsub : FVal.sub (.num 12) (.num 5) = .num (12 - 5) := rfl
  have h75 : (12 - 5 : ℚ) = 7 := by norm_num
  have hbeep := beepSegDur_num 1 7 (by norm_num) (by norm_num)
  have hlt1210 : FVal.lt (.num 12) (.num 10) = false := by
    simp only [FVal.lt, decide_eq_false_iff_not]
    norm_num
  have hrest : scrubDurLoop 10 1 (.num 12) [] = .ok [] := by
    simp only [scrubDurLoop, hlt1210]
    simp
  have hloop : scrubDurLoop 10 1 (.num 0) [(.num 5, .num 12)]
      = .ok [.num (5 - 0), .num (7 - 0)] := by
    simp only [scrubDurLoop, hlt05, hpass, hsub, h75, hbeep, hrest]
    simp [hlt1210]
  have htot : ([FVal.num (5 - 0), .num (7 - 0)].foldl FVal.add (.num 0))
      = .num (0 + (5 - 0) + (7 - 0)) := by
    simp [FVal.add]
  refine ⟨?_, ?_, ?_⟩
  · simp only [scrub_audio_run, hloop, htot]
    simp [FVal.ne]
  · simp only [scrub_audio_run, hloop, htot]
    simp [FVal.ne]
  · simp only [modified_duration, hloop, htot]
    norm_num

/-- Claim C8 as amended: the close calls of scrub_audio run only on the
success path and never cover the beep clip: when no exception is raised
the video, the original audio and the modified audio are closed and the
file is written, but the tone clip stays open; when an exception is
raised it reaches the caller with nothing closed and nothing written. -/
theorem scrub_run_close_paths (D b : ℚ) (ivs : List (FVal × FVal))
    (hD : 0 < D) (hb : 0 < b) :
    ((scrub_audio_run D b ivs).error = none →
        (scrub_audio_run D b ivs).wrote = true
          ∧ (scrub_audio_run D b ivs).videoClosed = true
          ∧ (scrub_audio_run D b ivs).audioClosed = true
          ∧ (scrub_audio_run D b ivs).modifiedClosed = true
          ∧ (scrub_audio_run D b ivs).beepClosed = false)
      ∧ ((scrub_audio_run D b ivs).error ≠ none →
          (scrub_audio_run D b ivs).wrote = false
            ∧ (scrub_audio_run D b ivs).videoClosed = false
            ∧ (scrub_audio_run D b ivs).audioClosed = false
            ∧ (scrub_audio_run D b ivs).modifiedClosed = false
            ∧ (scrub_audio_run D b ivs).beepClosed = false) := by
  rcases hE : scrubDurLoop D b (.num 0) ivs with err | segs
  · simp [scrub_audio_run, hE]
  · by_cases hne : FVal.ne (segs.foldl FVal.add (.num 0)) (segs.foldl FVal.add (.num 0)) = true
    · simp [scrub_audio_run, hE, hne]
    · simp only [Bool.not_eq_true] at hne
      simp [scrub_audio_run, hE, hne]

/-- Witness for the amended claim C8 on a successful run with no
intervals. -/
theorem scrub_run_close_paths_witness :
    (scrub_audio_run 5 2 []).videoClosed = true
      ∧ (scrub_audio_run 5 2 []).beepClosed = false := by
  have hlt : FVal.lt (.num 0) (.num 5) = true := by
    simp only [FVal.lt, decide_eq_true_eq]
    norm_num
  have hfinal := subclipRun_num 5 0 5 le_rfl (by norm_num) (by norm_num)
  have hloop : scrubDurLoop 5 2 (.num 0) [] = .ok [.num (5 - 0)] := by
    simp only [scrubDurLoop, hlt, hfinal]
    simp
  have herr : (scrub_audio_run 5 2 []).error = none := by
    simp only [scrub_audio_run, hloop]
    simp [FVal.ne, FVal.add]
  have h := (scrub_run_close_paths 5 2 [] (by norm_num) (by norm_num)).1 herr
  exact ⟨h.2.1, h.2.2.2.2⟩

/-- Counterexample to claim C8: with the interval from 2 to NaN the run
raises ValueError and the exception reaches the caller with neither the
source track nor its audio nor the output track closed: an exit path
without the releases the claim asserts. -/
theorem scrub_run_error_no_close_counterexample :
    (scrub_audio_run 10 1 [(.num 2, .nan)]).error = some PyError.valueErrorNaNDuration
      ∧ (scrub_audio_run 10 1 [(.num 2, .nan)]).videoClosed = false
      ∧ (scrub_audio_run 10 1 [(.num 2, .nan)]).audioClosed = false
      ∧ (scrub_audio_run 10 1 [(.num 2, .nan)]).modifiedClosed = false := by
  have hlt02 : FVal.lt (.num 0) (.num 2) = true := by
    simp only [FVal.lt, decide_eq_true_eq]
    norm_num
  have hpass := subclipRun_num 10 0 2 le_rfl (by norm_num) (by norm_num)
  have hbeep : beepSegDur 1 (FVal.sub .nan (.num 2)) = .ok .nan := by
    rw [show FVal.sub .nan (.num 2) = .nan from rfl]
    exact beepSegDur_nan 1 (by norm_num)
  have hloop : scrubDurLoop 10 1 (.num 0) [(.num 2, .nan)]
      = .ok [.num (2 - 0), .nan] := by
    simp only [scrubDurLoop, hlt02, hpass, hbeep,
      show FVal.lt (.nan : FVal) (.num 10) = false from rfl]
    simp
  simp only [scrub_audio_run, hloop]
  simp [FVal.add, FVal.ne]

end AudioDeid
